import Mathlib

/-
Verification of the htmlformat HTML pretty-printer (package htmlformat,
file format.go) against its natural-language specification.

Modelling conventions:
* `HNode` mirrors golang.org/x/net/html.Node restricted to what format.go
  reads: Type, DataAtom, Data, Attr, and the child list.  The Go tree's
  Parent / PrevSibling / NextSibling links are reconstructed from the child
  list and passed to `printNode` explicitly, exactly as the recursion in
  `printChildren` establishes them (top-level nodes handed to `Nodes` by
  `Document` / `Fragment` have nil parent and nil sibling links, because
  html.Parse returns the root with nil links and html.ParseFragment calls
  RemoveChild on every returned node).
* Machine strings are Lean `String`s (valid UTF-8; Go strings containing
  invalid UTF-8 are outside the model).
* `unicode.IsPunct` and `unicode.IsSpace` are modelled exactly for code
  points below U+0100 (resp. by the full White_Space table, which is finite);
  code points at and above U+0100 are classified as non-punctuation, which
  agrees with Go for every character appearing in this development.
* The output sink (io.Writer) is modelled by `WS`: the list of chunks
  successfully written so far, plus an optional index `failAt` of the single
  write attempt at which the sink reports an error.  Every fmt.Fprint /
  fmt.Fprintf call in format.go is one write attempt (one chunk).
* The bufio.Scanner of the special-content branch is modelled by
  `scanLines`, the token stream of a SUCCESSFUL scan.  A Scanner with the
  default buffer fails with bufio.ErrTooLong on any raw line of
  maxScanTokenSize (65536) bytes or more, and format.go:165-167 then
  returns that error after the preceding lines were already written,
  without the trailing newline.  `scanOk` characterises exactly the
  strings on which the scan succeeds; the special-content theorem below
  is stated under that bound, which delimits the model's exact domain.
-/

namespace Htmlformat

/-- html.NodeType restricted to the kinds format.go distinguishes. -/
inductive NType where
  | document
  | doctype
  | element
  | text
  | comment
  deriving DecidableEq, Repr

/-- The atoms of golang.org/x/net/html/atom that format.go matches on,
plus `zero` (the Go zero value, for tags that are not interned) and
`other` standing for every other interned atom (format.go treats all of
those identically: no case matches them). -/
inductive GoAtom where
  | zero
  | area | base | br | col | command | embed | hr | img | input | keygen
  | link | meta | param | source | track | wbr
  | style | script
  | pre
  | other
  deriving DecidableEq, Repr

/-- html.Attribute restricted to the fields format.go reads (Key, Val). -/
structure HAttr where
  key : String
  val : String
  deriving DecidableEq, Repr

/-- html.Node restricted to the fields format.go reads. -/
inductive HNode where
  | mk (ntype : NType) (dataAtom : GoAtom) (data : String)
       (attr : List HAttr) (children : List HNode)

def HNode.ntype : HNode → NType
  | .mk t _ _ _ _ => t

def HNode.dataAtom : HNode → GoAtom
  | .mk _ a _ _ _ => a

def HNode.data : HNode → String
  | .mk _ _ d _ _ => d

def HNode.attr : HNode → List HAttr
  | .mk _ _ _ ats _ => ats

def HNode.children : HNode → List HNode
  | .mk _ _ _ _ cs => cs

/-- unicode.IsSpace: Go's White_Space table (complete). -/
def isSpaceRune (c : Char) : Bool :=
  let n := c.toNat
  (0x9 ≤ n && n ≤ 0xD) || n == 0x20 || n == 0x85 || n == 0xA0 ||
  n == 0x1680 || (0x2000 ≤ n && n ≤ 0x200A) || n == 0x2028 || n == 0x2029 ||
  n == 0x202F || n == 0x205F || n == 0x3000

/-- strings.TrimSpace: drop White_Space characters from both ends. -/
def trimSpace (s : String) : String :=
  String.mk (((s.data.dropWhile isSpaceRune).reverse.dropWhile isSpaceRune).reverse)

/-- unicode.IsPunct (category P), modelled exactly for code points below
U+0100 (the Latin-1 rows of Go's category-P table); code points at and
above U+0100 are classified false, agreeing with Go on every character
used in this development. -/
def isPunct (c : Char) : Bool :=
  let n := c.toNat
  (0x21 ≤ n && n ≤ 0x23) || (0x25 ≤ n && n ≤ 0x2A) || (0x2C ≤ n && n ≤ 0x2F) ||
  n == 0x3A || n == 0x3B || n == 0x3F || n == 0x40 ||
  (0x5B ≤ n && n ≤ 0x5D) || n == 0x5F || n == 0x7B || n == 0x7D ||
  n == 0xA1 || n == 0xA7 || n == 0xAB || n == 0xB6 || n == 0xB7 ||
  n == 0xBB || n == 0xBF

/-- getFirstRune: utf8.DecodeRuneInString returns the first rune, or
RuneError (U+FFFD) on the empty string. -/
def getFirstRune (s : String) : Char :=
  if s.isEmpty then Char.ofNat 0xFFFD else s.front

/-- One step of html.EscapeString (x/net/html escape.go: the escaped
characters are the six in the string made of ampersand, apostrophe,
less-than, greater-than, double quote, carriage return). -/
def escapeRune (c : Char) : String :=
  if c = '&' then "&amp;"
  else if c = Char.ofNat 0x27 then "&#39;"
  else if c = '<' then "&lt;"
  else if c = '>' then "&gt;"
  else if c = '"' then "&#34;"
  else if c = '\r' then "&#13;"
  else String.mk [c]

/-- html.EscapeString. -/
def escapeString (s : String) : String :=
  String.join (s.data.map escapeRune)

/-- bufio.ScanLines drops a final carriage return of each line; the
accumulator below is reversed, so the line's last character is the head. -/
def dropCRrev : List Char → List Char
  | '\r' :: t => t
  | l => l

/-- Accumulating loop for `scanLines`: `acc` holds the current line's
characters in reverse.  A newline ends the current line; a newline that
ends the input produces no further (empty) token, matching
bufio.ScanLines at EOF. -/
def scanLinesGo : List Char → List Char → List String
  | [], acc => [String.mk (dropCRrev acc).reverse]
  | c :: rest, acc =>
    if c = '\n' then
      String.mk (dropCRrev acc).reverse
        :: (if rest.isEmpty then [] else scanLinesGo rest [])
    else scanLinesGo rest (c :: acc)

/-- The sequence of lines produced by a SUCCESSFUL bufio.Scanner run with
ScanLines over `s`: tokens split at newlines, no final empty token when
`s` ends in a newline, no token at all for the empty string, a final
carriage return of each line removed.  `scanOk` below characterises
exactly when the scanner run succeeds; on a string with an over-long raw
line the real scanner instead stops early and scanner.Err() returns
bufio.ErrTooLong, which format.go:165-167 propagates. -/
def scanLines (s : String) : List String :=
  if s.isEmpty then [] else scanLinesGo s.data []

/-- bufio.MaxScanTokenSize, the maximum token size a Scanner with the
default buffer can produce (64 * 1024 bytes). -/
def maxScanTokenSize : Nat := 65536

/-- The UTF-8 byte length of a character list (Go strings are byte
slices, and the Scanner's token-size limit is measured in bytes). -/
def utf8Len (cs : List Char) : Nat :=
  (cs.map Char.utf8Size).sum

/-- The raw tokens a ScanLines split works on: the byte runs between
newlines, the carriage return still included (the accumulator holds the
current run reversed).  Used only to measure token sizes. -/
def rawLines : List Char → List Char → List (List Char)
  | [], acc => [acc.reverse]
  | c :: rest, acc =>
    if c = '\n' then
      acc.reverse :: (if rest.isEmpty then [] else rawLines rest [])
    else rawLines rest (c :: acc)

/-- A bufio.Scanner with the default buffer scans `s` to completion
without error exactly when every raw line is shorter than
maxScanTokenSize bytes: a raw line of 65536 bytes or more fills the
buffer at its maximum size before a newline (or EOF) can be seen, Scan
returns false, and scanner.Err() reports bufio.ErrTooLong — the path
format.go:165-167 turns into an error return, with the lines before the
over-long one already written and no trailing newline. -/
def scanOk (s : String) : Bool :=
  (rawLines s.data []).all (fun l => utf8Len l < maxScanTokenSize)

/-- strings.Repeat " " level, the indent written by printIndent. -/
def indentStr (level : Nat) : String :=
  String.mk (List.replicate level ' ')

/-- isVoidElement: matches on DataAtom only. -/
def isVoidElement (n : HNode) : Bool :=
  match n.dataAtom with
  | .area | .base | .br | .col | .command | .embed | .hr | .img | .input
  | .keygen | .link | .meta | .param | .source | .track | .wbr => true
  | _ => false

/-- isSpecialContentElement: nil check, then matches on DataAtom only. -/
def isSpecialContentElement : Option HNode → Bool
  | none => false
  | some n =>
    match n.dataAtom with
    | .style | .script => true
    | _ => false

/-- isEmptyTextNode (defined in format.go; not referenced by printNode). -/
def isEmptyTextNode (n : HNode) : Bool :=
  decide (n.ntype = .text) && decide (trimSpace n.data = "")

/-- hasSingleTextChild: nil check, FirstChild non-nil, FirstChild equals
LastChild (so exactly one child), and that child is a text node. -/
def hasSingleTextChild : Option HNode → Bool
  | none => false
  | some n =>
    match n.children with
    | [c] => decide (c.ntype = .text)
    | _ => false

/-- The single chunk written for one attribute: a space, the key,
an equals sign, and the escaped value in double quotes. -/
def attrChunk (a : HAttr) : String :=
  " " ++ a.key ++ "=\"" ++ escapeString a.val ++ "\""

/-- The condition under which printNode writes a newline after an end tag:
NextSibling is nil, or its Data does not start with punctuation, or it is
an element node. -/
def elemTrailingNewline : Option HNode → Bool
  | none => true
  | some ns => !isPunct (getFirstRune ns.data) || decide (ns.ntype = .element)

/-- The condition under which the text branch of printNode writes a
leading indent, given the trimmed text `s`: the parent is not a special
content element, the parent does not have a single text child, and either
there is no previous sibling or `s` does not start with punctuation. -/
def textLeadingIndent (parent prev : Option HNode) (s : String) : Bool :=
  !isSpecialContentElement parent && !hasSingleTextChild parent &&
    (prev.isNone || !isPunct (getFirstRune s))

mutual

/-- The sequence of chunks (one chunk per fmt.Fprint / fmt.Fprintf call)
written by printNode for node `n` at indent `level`, where `parent`,
`prev`, `next` are the node's Parent, PrevSibling and NextSibling links.
Transcribed branch-for-branch from printNode in format.go; the theorem
`printNode_eq_emit` proves that the effectful `printNode` below writes
exactly this sequence. -/
def chunks : HNode → Nat → Option HNode → Option HNode → Option HNode → List String
  | .mk .text _ data _ _, level, parent, prev, _ =>
    let s := trimSpace data
    if s ≠ "" then
      (if textLeadingIndent parent prev s then [indentStr level] else [])
      ++ (if isSpecialContentElement parent then
            ((scanLines s).map (fun t => ["\n", indentStr (level + 1), t])).flatten
              ++ ["\n"]
          else
            [s] ++ (if !hasSingleTextChild parent then ["\n"] else []))
    else []
  | .mk .element atom data ats cs, level, _, _, next =>
    let n := HNode.mk .element atom data ats cs
    [indentStr level, "<" ++ data] ++ ats.map attrChunk ++ [">"]
    ++ (if !hasSingleTextChild (some n) then ["\n"] else [])
    ++ (if !isVoidElement n then
          chunksSeq n (level + 1) none cs
          ++ (if isSpecialContentElement (some n) || !hasSingleTextChild (some n)
              then [indentStr level] else [])
          ++ ["</" ++ data ++ ">"]
          ++ (if elemTrailingNewline next then ["\n"] else [])
        else [])
  | .mk .comment atom data ats cs, level, _, _, _ =>
    [indentStr level, "<!--" ++ data ++ "-->\n"]
    ++ chunksSeq (HNode.mk .comment atom data ats cs) level none cs
  | .mk .doctype atom data ats cs, level, _, _, _ =>
    chunksSeq (HNode.mk .doctype atom data ats cs) level none cs
  | .mk .document atom data ats cs, level, _, _, _ =>
    chunksSeq (HNode.mk .document atom data ats cs) level none cs

/-- The chunks written by printChildren's loop from a given child onward:
each child is printed with this `parent`, the previous child as
PrevSibling (`prev` for the first), and the following child (if any) as
NextSibling. -/
def chunksSeq : HNode → Nat → Option HNode → List HNode → List String
  | _, _, _, [] => []
  | parent, level, prev, c :: rest =>
    chunks c level (some parent) prev rest.head? ++ chunksSeq parent level (some c) rest

end

/-- The chunks written by printChildren: iterate over the children. -/
def chunksChildren (n : HNode) (level : Nat) : List String :=
  chunksSeq n level none n.children

/-- The full output string for one node (the concatenation of its chunks). -/
def output (n : HNode) (level : Nat) (parent prev next : Option HNode) : String :=
  String.join (chunks n level parent prev next)

/-- The errors format.go can return: an upstream parse error (html.Parse /
html.ParseFragment), or the error produced by the output sink on a given
write attempt (identified by the 0-based index of the attempt). -/
inductive FErr where
  | parseErr (msg : String)
  | sinkErr (attempt : Nat)
  deriving DecidableEq, Repr

/-- The state of the output sink: the chunks successfully written so far,
and the index (counted over all write attempts) at which the sink fails,
if any.  Each successful write appends one chunk, so the index of the next
attempt is `written.length`. -/
structure WS where
  written : List String
  failAt : Option Nat
  deriving DecidableEq, Repr

/-- Result of an effectful formatter step: like Go, an error aborts the
computation but the sink keeps whatever was already flushed. -/
inductive WRes (α : Type) where
  | ok (a : α) (ws : WS)
  | error (e : FErr) (ws : WS)
  deriving DecidableEq, Repr

/-- The effect type of the formatter: state of the sink, with early abort
on error — the shape of Go's `if err != nil { return }` chains. -/
def WM (α : Type) : Type := WS → WRes α

instance : Monad WM where
  pure a := fun ws => .ok a ws
  bind m f := fun ws =>
    match m ws with
    | .ok a ws' => f a ws'
    | .error e ws' => .error e ws'

/-- Run an effectful formatter on a sink state. -/
def WM.run (m : WM α) (ws : WS) : WRes α := m ws

/-- One write attempt (one fmt.Fprint / fmt.Fprintf call): fails exactly
when the sink is set to fail at this attempt, otherwise appends the chunk. -/
def wwrite (s : String) : WM Unit := fun ws =>
  if ws.failAt = some ws.written.length then .error (.sinkErr ws.written.length) ws
  else .ok () ⟨ws.written ++ [s], ws.failAt⟩

/-- Return an error (Go: `return err`). -/
def wthrow (e : FErr) : WM Unit := fun ws => .error e ws

/-- printIndent: one write of `level` spaces (also attempted when the
indent is empty, since fmt.Fprint always calls Write). -/
def printIndent (level : Nat) : WM Unit :=
  wwrite (indentStr level)

/-- The attribute loop of printNode: one write per attribute. -/
def printAttrs : List HAttr → WM Unit
  | [] => pure ()
  | a :: rest => do
    wwrite (attrChunk a)
    printAttrs rest

/-- The scanner loop of the special-content branch: for each line, a
newline write, an indent write at level+1, and the line itself. -/
def printLines (level : Nat) : List String → WM Unit
  | [] => pure ()
  | t :: rest => do
    wwrite "\n"
    printIndent (level + 1)
    wwrite t
    printLines level rest

mutual

/-- printNode from format.go, transcribed statement by statement.  The
writer `w` is the WM state; `parent`, `prev`, `next` stand for n.Parent,
n.PrevSibling and n.NextSibling.  Every fmt.Fprint / fmt.Fprintf of the
source is one `wwrite`; error propagation (`if err != nil return`) is the
bind of `WM`. -/
def printNode : HNode → Nat → Option HNode → Option HNode → Option HNode → WM Unit
  | .mk .text _ data _ _, level, parent, prev, _ => do
    let s := trimSpace data
    if s ≠ "" then
      if textLeadingIndent parent prev s then
        printIndent level
      if isSpecialContentElement parent then
        printLines level (scanLines s)
        wwrite "\n"
      else
        wwrite s
        if !hasSingleTextChild parent then
          wwrite "\n"
  | .mk .element atom data ats cs, level, _, _, next => do
    let n := HNode.mk .element atom data ats cs
    printIndent level
    wwrite ("<" ++ data)
    printAttrs ats
    wwrite ">"
    if !hasSingleTextChild (some n) then
      wwrite "\n"
    if !isVoidElement n then
      printSeq n (level + 1) none cs
      if isSpecialContentElement (some n) || !hasSingleTextChild (some n) then
        printIndent level
      wwrite ("</" ++ data ++ ">")
      if elemTrailingNewline next then
        wwrite "\n"
  | .mk .comment atom data ats cs, level, _, _, _ => do
    printIndent level
    wwrite ("<!--" ++ data ++ "-->\n")
    printSeq (HNode.mk .comment atom data ats cs) level none cs
  | .mk .doctype atom data ats cs, level, _, _, _ =>
    printSeq (HNode.mk .doctype atom data ats cs) level none cs
  | .mk .document atom data ats cs, level, _, _, _ =>
    printSeq (HNode.mk .document atom data ats cs) level none cs

/-- The loop of printChildren: print each child in order, stopping at the
first error (the bind of `WM`), threading the sibling links. -/
def printSeq : HNode → Nat → Option HNode → List HNode → WM Unit
  | _, _, _, [] => pure ()
  | parent, level, prev, c :: rest => do
    printNode c level (some parent) prev rest.head?
    printSeq parent level (some c) rest

end

/-- printChildren from format.go. -/
def printChildren (n : HNode) (level : Nat) : WM Unit :=
  printSeq n level none n.children

/-- Nodes from format.go: print each top-level node at level 0, stopping
at the first error.  Top-level nodes handed over by Document / Fragment
have nil Parent and nil sibling links (see the module comment). -/
def Nodes : List HNode → WM Unit
  | [] => pure ()
  | n :: rest => do
    printNode n 0 none none none
    Nodes rest

/-- Document from format.go: html.Parse is external, so its result is the
input; a parse error is returned before anything is written, otherwise the
single root node is formatted. -/
def Document (parsed : Except FErr HNode) : WM Unit :=
  match parsed with
  | .error e => wthrow e
  | .ok node => Nodes [node]

/-- Fragment from format.go: html.ParseFragment is external, so its result
is the input; a parse error is returned before anything is written,
otherwise the parsed top-level nodes are formatted. -/
def Fragment (parsed : Except FErr (List HNode)) : WM Unit :=
  match parsed with
  | .error e => wthrow e
  | .ok nodes => Nodes nodes

mutual

/-- printPre from format.go.  This function is defined in the source with
the comment that pre content "should always be formatted as is", but no
other function of the package ever calls it (printNode recurses only into
printNode via printChildren): it is dead code.  It is embedded here to
compare its verbatim behaviour with what printNode actually does. -/
def printPre : HNode → WM Unit
  | .mk .text _ data _ cs => do
    wwrite data
    printPreSeq cs
  | .mk .element atom data ats cs => do
    wwrite ("<" ++ data)
    printAttrs ats
    wwrite ">"
    if !isVoidElement (HNode.mk .element atom data ats cs) then
      printPreSeq cs
      wwrite ("</" ++ data ++ ">")
  | .mk .comment _ data _ cs => do
    wwrite ("<!--" ++ data ++ "-->\n")
    printPreSeq cs
  | .mk .doctype _ _ _ cs => printPreSeq cs
  | .mk .document _ _ _ cs => printPreSeq cs

/-- The child loop of printPre. -/
def printPreSeq : List HNode → WM Unit
  | [] => pure ()
  | c :: rest => do
    printPre c
    printPreSeq rest

end

/-- Write a list of chunks in order, aborting at the first failure. -/
def emit : List String → WM Unit
  | [] => pure ()
  | s :: rest => do
    wwrite s
    emit rest

/-- `m` behaves, on every sink state, exactly like writing the chunk list
`L` in order. -/
def IsEm (m : WM Unit) (L : List String) : Prop :=
  ∀ ws, m.run ws = (emit L).run ws

/-- The chunks written by Nodes for a top-level node list. -/
def nodesChunks (nodes : List HNode) : List String :=
  (nodes.map (fun n => chunks n 0 none none none)).flatten

/-- Text-node constructor shorthand for concrete test trees (the parser
leaves DataAtom zero and Attr empty on text nodes). -/
def tx (s : String) : HNode :=
  HNode.mk .text .zero s [] []

/-- Div-element shorthand for concrete test trees. -/
def tDiv (cs : List HNode) : HNode :=
  HNode.mk .element .other "div" [] cs

/-- Style-element shorthand for concrete test trees. -/
def tStyle (cs : List HNode) : HNode :=
  HNode.mk .element .style "style" [] cs

/-- Pre-element shorthand for concrete test trees. -/
def tPre (cs : List HNode) : HNode :=
  HNode.mk .element .pre "pre" [] cs

/-- Modelled from the spec, for comparison with the code only (no such
function exists in format.go): `collapseWhitespace(s)` trims `s` to its
non-whitespace core, then re-adds exactly one leading space if `s`
originally had any leading whitespace, and exactly one trailing space if
`s` originally had any trailing whitespace. -/
def collapseWhitespaceSpec (s : String) : String :=
  (if s.data.head?.any isSpaceRune then " " else "")
    ++ trimSpace s
    ++ (if s.data.getLast?.any isSpaceRune then " " else "")

theorem WM.run_bind (m : WM α) (f : α → WM β) (ws : WS) :
    (m >>= f).run ws =
      match m.run ws with
      | .ok a ws' => (f a).run ws'
      | .error e ws' => .error e ws' := rfl

theorem emit_append_run (L₁ L₂ : List String) :
    ∀ ws, (emit (L₁ ++ L₂)).run ws =
      match (emit L₁).run ws with
      | .ok _ ws' => (emit L₂).run ws'
      | .error e ws' => .error e ws' := by
  induction L₁ with
  | nil => intro ws; rfl
  | cons s rest ih =>
    intro ws
    simp only [List.cons_append, emit, WM.run_bind]
    cases h : (wwrite s).run ws with
    | ok a ws' => exact ih ws'
    | error e ws' => rfl

theorem isEm_pure : IsEm (pure () : WM Unit) [] := fun _ => rfl

theorem isEm_wwrite (s : String) : IsEm (wwrite s) [s] := by
  intro ws
  show _ = (wwrite s >>= fun _ => pure ()).run ws
  rw [WM.run_bind]
  cases h : (wwrite s).run ws with
  | ok a ws' => cases a; rfl
  | error e ws' => rfl

theorem isEm_printIndent (level : Nat) : IsEm (printIndent level) [indentStr level] :=
  isEm_wwrite (indentStr level)

theorem IsEm.seq {m₁ m₂ : WM Unit} {L₁ L₂ : List String}
    (h₁ : IsEm m₁ L₁) (h₂ : IsEm m₂ L₂) :
    IsEm (m₁ >>= fun _ => m₂) (L₁ ++ L₂) := by
  intro ws
  rw [WM.run_bind, h₁ ws, emit_append_run]
  cases (emit L₁).run ws with
  | ok a ws' => exact h₂ ws'
  | error e ws' => rfl

theorem IsEm.split (c : Prop) [Decidable c] {m₁ m₂ : WM Unit} {L₁ L₂ : List String}
    (h₁ : IsEm m₁ L₁) (h₂ : IsEm m₂ L₂) :
    IsEm (if c then m₁ else m₂) (if c then L₁ else L₂) := by
  by_cases h : c
  · simp only [if_pos h]; exact h₁
  · simp only [if_neg h]; exact h₂

theorem IsEm.branch (c : Prop) [Decidable c] {m₁ m₂ k : WM Unit}
    {L₁ L₂ K : List String}
    (h₁ : IsEm m₁ L₁) (h₂ : IsEm m₂ L₂) (hk : IsEm k K) :
    IsEm (if c then m₁ >>= fun _ => k else m₂ >>= fun _ => k)
      ((if c then L₁ else L₂) ++ K) := by
  by_cases h : c
  · simp only [if_pos h]; exact h₁.seq hk
  · simp only [if_neg h]; exact h₂.seq hk

theorem isEm_printAttrs (l : List HAttr) : IsEm (printAttrs l) (l.map attrChunk) := by
  induction l with
  | nil => exact isEm_pure
  | cons a rest ih => exact IsEm.seq (isEm_wwrite (attrChunk a)) ih

theorem isEm_printLines (level : Nat) (l : List String) :
    IsEm (printLines level l)
      ((l.map fun t => ["\n", indentStr (level + 1), t]).flatten) := by
  induction l with
  | nil => exact isEm_pure
  | cons t rest ih =>
    simp only [List.map_cons, List.flatten_cons, List.cons_append, List.singleton_append]
    exact IsEm.seq (isEm_wwrite "\n")
      (IsEm.seq (isEm_printIndent (level + 1)) (IsEm.seq (isEm_wwrite t) ih))

/-- The effectful printNode / printSeq write exactly the chunk sequences
computed by the pure `chunks` / `chunksSeq`, on every sink state
(including failing sinks). -/
theorem print_eq_emit_all :
    (∀ n level parent prev next,
      IsEm (printNode n level parent prev next) (chunks n level parent prev next)) ∧
    (∀ parent level prev l,
      IsEm (printSeq parent level prev l) (chunksSeq parent level prev l)) := by
  refine @printNode.mutual_induct
    (fun n level parent prev next =>
      IsEm (printNode n level parent prev next) (chunks n level parent prev next))
    (fun parent level prev l =>
      IsEm (printSeq parent level prev l) (chunksSeq parent level prev l))
    ?_ ?_ ?_ ?_ ?_ ?_ ?_ ?_ ?_
  · intro dataAtom data attr children level parent prev x s h₁ h₂
    simp only [printNode, chunks]
    exact IsEm.split _
      (IsEm.branch _ (isEm_printIndent _) isEm_pure
        (IsEm.split _ (IsEm.seq (isEm_printLines _ _) (isEm_wwrite _))
          (IsEm.seq (isEm_wwrite _) (IsEm.split _ (isEm_wwrite _) isEm_pure))))
      isEm_pure
  · intro dataAtom data attr children level parent prev x s h₁ h₂
    simp only [printNode, chunks]
    exact IsEm.split _
      (IsEm.branch _ (isEm_printIndent _) isEm_pure
        (IsEm.split _ (IsEm.seq (isEm_printLines _ _) (isEm_wwrite _))
          (IsEm.seq (isEm_wwrite _) (IsEm.split _ (isEm_wwrite _) isEm_pure))))
      isEm_pure
  · intro dataAtom data attr children level parent prev x s h₁
    simp only [printNode, chunks]
    exact IsEm.split _
      (IsEm.branch _ (isEm_printIndent _) isEm_pure
        (IsEm.split _ (IsEm.seq (isEm_printLines _ _) (isEm_wwrite _))
          (IsEm.seq (isEm_wwrite _) (IsEm.split _ (isEm_wwrite _) isEm_pure))))
      isEm_pure
  · intro atom data ats cs level x x₁ next n ih
    simp only [printNode, chunks, List.append_assoc, List.cons_append,
      List.singleton_append, List.nil_append]
    exact IsEm.seq (isEm_printIndent _)
      (IsEm.seq (isEm_wwrite _)
        (IsEm.seq (isEm_printAttrs _)
          (IsEm.seq (isEm_wwrite _)
            (IsEm.branch _ (isEm_wwrite _) isEm_pure
              (IsEm.split _
                (IsEm.seq ih
                  (IsEm.branch _ (isEm_printIndent _) isEm_pure
                    (IsEm.seq (isEm_wwrite _)
                      (IsEm.split _ (isEm_wwrite _) isEm_pure))))
                isEm_pure)))))
  · intro atom data ats cs level x x₁ x₂ ih
    simp only [printNode, chunks, List.cons_append, List.singleton_append]
    exact IsEm.seq (isEm_printIndent _) (IsEm.seq (isEm_wwrite _) ih)
  · intro atom data ats cs level x x₁ x₂ ih
    simp only [printNode, chunks]
    exact ih
  · intro atom data ats cs level x x₁ x₂ ih
    simp only [printNode, chunks]
    exact ih
  · intro p level prev
    simp only [printSeq, chunksSeq]
    exact isEm_pure
  · intro p level prev c rest ih₁ ih₂
    simp only [printSeq, chunksSeq]
    exact IsEm.seq ih₁ ih₂

/-- printNode writes exactly its chunk sequence. -/
theorem printNode_eq_emit (n : HNode) (level : Nat) (parent prev next : Option HNode) :
    IsEm (printNode n level parent prev next) (chunks n level parent prev next) :=
  print_eq_emit_all.1 n level parent prev next

/-- Nodes writes exactly the concatenation of its nodes' chunk sequences. -/
theorem isEm_Nodes (l : List HNode) : IsEm (Nodes l) (nodesChunks l) := by
  induction l with
  | nil => exact isEm_pure
  | cons n rest ih =>
    simp only [Nodes, nodesChunks, List.map_cons, List.flatten_cons]
    exact IsEm.seq (print_eq_emit_all.1 n 0 none none none) ih

/-- Running `emit L` on a sink that never fails appends the whole list. -/
theorem emit_run_none (L : List String) :
    ∀ w, (emit L).run ⟨w, none⟩ = .ok () ⟨w ++ L, none⟩ := by
  induction L with
  | nil =>
    intro w
    show WRes.ok () ⟨w, none⟩ = _
    rw [List.append_nil]
  | cons s rest ih =>
    intro w
    simp only [emit, WM.run_bind]
    have hw : (wwrite s).run ⟨w, none⟩ = .ok () ⟨w ++ [s], none⟩ := by
      simp [wwrite, WM.run]
    rw [hw]
    show (emit rest).run ⟨w ++ [s], none⟩ = _
    rw [ih]
    simp

/-- Running `emit L` on a sink that fails at attempt `k`: either the run
never reaches attempt `k` and succeeds, or it stops at the first failing
write, with exactly the chunks before that write flushed and the error of
that write returned. -/
theorem emit_run_some (L : List String) :
    ∀ w k, (emit L).run ⟨w, some k⟩ =
      if k < w.length ∨ w.length + L.length ≤ k then .ok () ⟨w ++ L, some k⟩
      else .error (.sinkErr k) ⟨w ++ L.take (k - w.length), some k⟩ := by
  induction L with
  | nil =>
    intro w k
    show WRes.ok () ⟨w, some k⟩ = _
    rw [if_pos (by simp only [List.length_nil]; omega), List.append_nil]
  | cons s rest ih =>
    intro w k
    simp only [emit, WM.run_bind]
    by_cases hk : k = w.length
    · have hw : (wwrite s).run ⟨w, some k⟩ = .error (.sinkErr w.length) ⟨w, some k⟩ := by
        simp [wwrite, WM.run, hk]
      rw [hw]
      rw [if_neg (by simp; omega)]
      subst hk
      simp
    · have hw : (wwrite s).run ⟨w, some k⟩ = .ok () ⟨w ++ [s], some k⟩ := by
        simp [wwrite, WM.run, hk]
      rw [hw]
      show (emit rest).run ⟨w ++ [s], some k⟩ = _
      rw [ih]
      by_cases hc : k < w.length ∨ w.length + (s :: rest).length ≤ k
      · rw [if_pos (by simp at hc ⊢; omega), if_pos hc]
        simp
      · rw [if_neg (by simp at hc ⊢; omega), if_neg hc]
        have hlt : w.length < k := by simp at hc; omega
        congr 1
        simp only [List.append_assoc, List.singleton_append]
        congr 1
        have hks : k - w.length = (k - (w ++ [s]).length) + 1 := by simp; omega
        rw [hks, List.take_succ_cons]

/-- C1: the claim that all text inside a pre subtree is emitted verbatim
(no trimming, no collapsing, no added indentation or newlines) is violated
by the code: printNode never calls printPre — printPre is dead code — so
a pre element's text child "  a  " is trimmed and the output is
"<pre>a</pre>" with a newline, not the verbatim content.  The second
conjunct runs the dead printPre on the same tree and shows it would have
produced the verbatim output that the source's own comment promises. -/
theorem C1_pre_not_verbatim :
    output (tPre [tx "  a  "]) 0 none none none = "<pre>a</pre>\n" ∧
    (printPre (tPre [tx "  a  "])).run ⟨[], none⟩
      = .ok () ⟨["<pre", ">", "  a  ", "</pre>"], none⟩ ∧
    "<pre>a</pre>\n" ≠ "<pre>" ++ "  a  " ++ "</pre>" ++ "\n" :=
  ⟨by decide, by decide, by decide⟩

/-- C2 (counterexample): a text node " A " (leading and trailing
whitespace) inside a two-child div emits the chunk "A": the claim's
collapseWhitespace would require " A " (one leading and one trailing
space re-added), but no such function exists in format.go. -/
theorem C2_counterexample :
    chunks (tx " A ") 1 (some (tDiv [tx " A ", tx "B"])) none (some (tx "B"))
      = [" ", "A", "\n"] ∧
    collapseWhitespaceSpec " A " = " A " ∧
    collapseWhitespaceSpec " A "
      ∉ chunks (tx " A ") 1 (some (tDiv [tx " A ", tx "B"])) none (some (tx "B")) :=
  ⟨by decide, by decide, by decide⟩

/-- C2 (amended): for every non-raw text node with nonempty trimmed
content whose parent is neither a special-content element nor an element
with a single text child, the emitted text equals strings.TrimSpace of
the content — the non-whitespace core with NO spaces re-added (internal
whitespace is untouched, edge whitespace is dropped entirely). -/
theorem C2_text_is_trimspace (a : GoAtom) (data : String) (ats : List HAttr)
    (cs : List HNode) (level : Nat) (parent prev next : Option HNode)
    (hs : trimSpace data ≠ "")
    (hsp : isSpecialContentElement parent = false)
    (hstc : hasSingleTextChild parent = false) :
    chunks (HNode.mk .text a data ats cs) level parent prev next
      = (if textLeadingIndent parent prev (trimSpace data) then [indentStr level] else [])
        ++ [trimSpace data, "\n"] := by
  simp only [chunks, if_pos hs]
  simp [hsp, hstc]

/-- C2 (witness): the amended statement evaluated at the counterexample
input. -/
theorem C2_witness :
    trimSpace " A " ≠ "" ∧
    chunks (tx " A ") 1 (some (tDiv [tx " A ", tx "B"])) none (some (tx "B"))
      = (if textLeadingIndent (some (tDiv [tx " A ", tx "B"])) none (trimSpace " A ")
          then [indentStr 1] else [])
        ++ [trimSpace " A ", "\n"] :=
  ⟨by decide,
    C2_text_is_trimspace .zero " A " [] [] 1 (some (tDiv [tx " A ", tx "B"])) none
      (some (tx "B")) (by decide) (by decide) (by decide)⟩

/-- C3 (counterexample): an element b whose previous sibling is the text
node "a." (trimmed text ends in the punctuation character '.') still gets
a leading indent (its first chunk is the indent), and the preceding text
node still emits a trailing newline — so the node is NOT glued to the
previous content, refuting the claim. -/
theorem C3_counterexample :
    (trimSpace "a.").data.getLast? = some '.' ∧
    isPunct '.' = true ∧
    chunks (HNode.mk .element .other "b" [] []) 1
        (some (tDiv [tx "a.", HNode.mk .element .other "b" [] []]))
        (some (tx "a.")) none
      = [" ", "<b", ">", "\n", " ", "</b>", "\n"] ∧
    chunks (tx "a.") 1
        (some (tDiv [tx "a.", HNode.mk .element .other "b" [] []])) none
        (some (HNode.mk .element .other "b" [] []))
      = [" ", "a.", "\n"] :=
  ⟨by decide, by decide, by decide, by decide⟩

/-- C3 (amended): the glue rule is keyed on the punctuation-leading side,
not on the previous sibling's trailing rune: (1) a non-special,
non-single-text-child text node with a previous sibling whose OWN trimmed
text starts with punctuation gets no leading indent (its chunks are just
the text and the newline); (2) a non-void element followed by a
non-element sibling whose content starts with punctuation emits exactly
its usual output minus the trailing newline. -/
theorem C3_glue_rule :
    (∀ (a : GoAtom) (data : String) (ats : List HAttr) (cs : List HNode)
        (level : Nat) (parent : Option HNode) (q : HNode) (next : Option HNode),
      trimSpace data ≠ "" →
      isSpecialContentElement parent = false →
      hasSingleTextChild parent = false →
      isPunct (getFirstRune (trimSpace data)) = true →
      chunks (HNode.mk .text a data ats cs) level parent (some q) next
        = [trimSpace data, "\n"]) ∧
    (∀ (a : GoAtom) (d : String) (ats : List HAttr) (cs : List HNode)
        (level : Nat) (parent prev : Option HNode) (ns : HNode),
      isVoidElement (HNode.mk .element a d ats cs) = false →
      ns.ntype ≠ .element →
      isPunct (getFirstRune ns.data) = true →
      chunks (HNode.mk .element a d ats cs) level parent prev (some ns) ++ ["\n"]
        = chunks (HNode.mk .element a d ats cs) level parent prev none) := by
  constructor
  · intro a data ats cs level parent q next hs hsp hstc hp
    simp only [chunks, if_pos hs]
    simp [textLeadingIndent, hsp, hstc, hp]
  · intro a d ats cs level parent prev ns hv hne hp
    simp only [chunks]
    simp [elemTrailingNewline, hv, hp, hne]

/-- C3 (witness): both amended glue statements evaluated at concrete
inputs (a "." text after a sibling, and a div followed by ". x"). -/
theorem C3_witness :
    (trimSpace "." ≠ "" ∧ isPunct (getFirstRune (trimSpace ".")) = true ∧
      chunks (tx ".") 1 (some (tDiv [tDiv [], tx "."])) (some (tDiv [])) none
        = [".", "\n"]) ∧
    (isVoidElement (tDiv []) = false ∧
      chunks (tDiv []) 0 none none (some (tx ". x")) ++ ["\n"]
        = chunks (tDiv []) 0 none none none) := by
  refine ⟨⟨by decide, by decide, ?_⟩, ⟨by decide, ?_⟩⟩
  · exact C3_glue_rule.1 .zero "." [] [] 1 (some (tDiv [tDiv [], tx "."])) (tDiv []) none
      (by decide) (by decide) (by decide) (by decide)
  · exact C3_glue_rule.2 .other "div" [] [] 0 none none (tx ". x")
      (by decide) (by decide) (by decide)

/-- C4 (counterexample): a text node "A" whose next sibling's content
". b" begins with punctuation still gets its trailing newline — the
next-sibling punctuation rule claimed in (b) is not applied to text
nodes. -/
theorem C4_counterexample :
    isPunct (getFirstRune ". b") = true ∧
    chunks (tx "A") 1 (some (tDiv [tx "A", tx ". b"])) none (some (tx ". b"))
      = [" ", "A", "\n"] :=
  ⟨by decide, by decide⟩

/-- C4 (amended): after a non-special text node's content a trailing
newline is written iff the parent does not have a single text child; the
next sibling plays no role at all for text nodes (the chunks are
literally independent of the NextSibling link — the punctuation lookahead
guards only element end tags). -/
theorem C4_text_trailing :
    (∀ (a : GoAtom) (data : String) (ats : List HAttr) (cs : List HNode)
        (level : Nat) (parent prev next next' : Option HNode),
      chunks (HNode.mk .text a data ats cs) level parent prev next
        = chunks (HNode.mk .text a data ats cs) level parent prev next') ∧
    (∀ (a : GoAtom) (data : String) (ats : List HAttr) (cs : List HNode)
        (level : Nat) (parent prev next : Option HNode),
      trimSpace data ≠ "" →
      isSpecialContentElement parent = false →
      ((hasSingleTextChild parent = false →
          (chunks (HNode.mk .text a data ats cs) level parent prev next).getLast?
            = some "\n") ∧
       (hasSingleTextChild parent = true →
          chunks (HNode.mk .text a data ats cs) level parent prev next
            = [trimSpace data]))) := by
  constructor
  · intro a data ats cs level parent prev next next'
    rfl
  · intro a data ats cs level parent prev next hs hsp
    constructor
    · intro hstc
      simp only [chunks, if_pos hs]
      simp only [hsp, hstc]
      by_cases hl : textLeadingIndent parent prev (trimSpace data) = true
      · simp [hl]
      · simp [hl]
    · intro hstc
      simp only [chunks, if_pos hs]
      simp [hsp, hstc, textLeadingIndent]

/-- C4 (witness): the amended statement evaluated at the counterexample
input. -/
theorem C4_witness :
    trimSpace " A " ≠ "" ∧
    (chunks (tx " A ") 1 (some (tDiv [tx " A ", tx ". b"])) none
        (some (tx ". b"))).getLast? = some "\n" :=
  ⟨by decide,
    (C4_text_trailing.2 .zero " A " [] [] 1 (some (tDiv [tx " A ", tx ". b"])) none
      (some (tx ". b")) (by decide) (by decide)).1 (by decide)⟩

/-- C5: every formatted element writes, between its "<tag" chunk and its
">" chunk, exactly one chunk per attribute — a space, the name, an equals
sign and the double-quoted escaped value — in the original attribute
order; html.EscapeString escapes the attribute-unsafe characters
(ampersand, less-than, greater-than, double quote, in entity form), and a
value decoded to the two characters "&&" re-serializes as
"&amp;&amp;". -/
theorem C5_attributes (a : GoAtom) (d : String) (ats : List HAttr) (cs : List HNode)
    (level : Nat) (parent prev next : Option HNode) :
    (∃ rest, chunks (HNode.mk .element a d ats cs) level parent prev next
        = [indentStr level, "<" ++ d] ++ ats.map attrChunk ++ [">"] ++ rest) ∧
    (∀ p : HAttr, attrChunk p = " " ++ p.key ++ "=\"" ++ escapeString p.val ++ "\"") ∧
    escapeString "&&" = "&amp;&amp;" ∧
    escapeString "&" = "&amp;" ∧
    escapeString "<" = "&lt;" ∧
    escapeString ">" = "&gt;" ∧
    escapeString "\"" = "&#34;" := by
  refine ⟨⟨(if !hasSingleTextChild (some (HNode.mk .element a d ats cs)) then ["\n"] else [])
      ++ (if !isVoidElement (HNode.mk .element a d ats cs) then
            chunksSeq (HNode.mk .element a d ats cs) (level + 1) none cs
            ++ (if isSpecialContentElement (some (HNode.mk .element a d ats cs))
                  || !hasSingleTextChild (some (HNode.mk .element a d ats cs))
                then [indentStr level] else [])
            ++ ["</" ++ d ++ ">"]
            ++ (if elemTrailingNewline next then ["\n"] else [])
          else []), ?_⟩,
    fun p => rfl, by decide, by decide, by decide, by decide, by decide⟩
  simp only [chunks, List.append_assoc]

/-- C6 (counterexample): a style element whose only child is the text
node "a" satisfies hasSingleTextChild, yet it is NOT rendered on one
line: the special-content path emits newlines between the start tag, the
text, and the end tag. -/
theorem C6_counterexample :
    hasSingleTextChild (some (tStyle [tx "a"])) = true ∧
    output (tStyle [tx "a"]) 0 none none none = "<style>\n  a\n</style>\n" ∧
    "<style>\n  a\n</style>\n" ≠ "<style>" ++ "a" ++ "</style>" ++ "\n" :=
  ⟨by decide, by decide, by decide⟩

/-- C6 (amended): for every non-void element that is not a
special-content element and whose first child equals its last child with
that child a text node, the start tag, the trimmed text and the end tag
are emitted with no newline or indent between them, at the element's
indent level (then the usual trailing-newline rule applies). -/
theorem C6_single_text_child_inline (a ca : GoAtom) (d cdata : String)
    (ats cats : List HAttr) (ccs : List HNode)
    (level : Nat) (parent prev next : Option HNode)
    (hv : isVoidElement
      (HNode.mk .element a d ats [HNode.mk .text ca cdata cats ccs]) = false)
    (hsp : isSpecialContentElement
      (some (HNode.mk .element a d ats [HNode.mk .text ca cdata cats ccs])) = false) :
    chunks (HNode.mk .element a d ats [HNode.mk .text ca cdata cats ccs])
        level parent prev next
      = [indentStr level, "<" ++ d] ++ ats.map attrChunk ++ [">"]
        ++ (if trimSpace cdata ≠ "" then [trimSpace cdata] else [])
        ++ ["</" ++ d ++ ">"]
        ++ (if elemTrailingNewline next then ["\n"] else []) := by
  have hstc : hasSingleTextChild
      (some (HNode.mk .element a d ats [HNode.mk .text ca cdata cats ccs])) = true := by
    simp [hasSingleTextChild, HNode.children, HNode.ntype]
  simp only [chunks, chunksSeq]
  simp only [hv, hsp, hstc, textLeadingIndent]
  by_cases hc : trimSpace cdata ≠ "" <;> simp [hc]

/-- C6 (witness): the amended statement at the li-with-" A " instance of
the Go test file (rendered "<li>A</li>" on one line). -/
theorem C6_witness :
    isVoidElement (HNode.mk .element .other "li" [] [tx " A "]) = false ∧
    chunks (HNode.mk .element .other "li" [] [tx " A "]) 1 none none none
      = [indentStr 1, "<" ++ "li"] ++ ([] : List HAttr).map attrChunk ++ [">"]
        ++ (if trimSpace " A " ≠ "" then [trimSpace " A "] else [])
        ++ ["</" ++ "li" ++ ">"]
        ++ (if elemTrailingNewline none then ["\n"] else []) :=
  ⟨by decide,
    C6_single_text_child_inline .other .zero "li" " A " [] [] [] 1 none none none
      (by decide) (by decide)⟩

/-- C7: a void element (DataAtom in the fixed 16-element set) writes only
its indent, its start tag with attributes, and possibly the newline after
the start tag: the chunk list contains no end tag and no chunk from any
child — the children are never recursed into, regardless of child
content. -/
theorem C7_void_elements (a : GoAtom) (d : String) (ats : List HAttr) (cs : List HNode)
    (level : Nat) (parent prev next : Option HNode)
    (hv : isVoidElement (HNode.mk .element a d ats cs) = true) :
    chunks (HNode.mk .element a d ats cs) level parent prev next
      = [indentStr level, "<" ++ d] ++ ats.map attrChunk ++ [">"]
        ++ (if hasSingleTextChild (some (HNode.mk .element a d ats cs))
            then [] else ["\n"]) := by
  simp only [chunks]
  simp only [hv]
  by_cases hstc : hasSingleTextChild (some (HNode.mk .element a d ats cs)) = true <;>
    simp [hstc]

/-- C7 (witness): a br element that (against the parser invariant) even
has a text child still emits only its start tag — no end tag, no child
output. -/
theorem C7_witness :
    isVoidElement (HNode.mk .element .br "br" [] [tx "x"]) = true ∧
    chunks (HNode.mk .element .br "br" [] [tx "x"]) 0 none none none
      = [indentStr 0, "<" ++ "br"] ++ ([] : List HAttr).map attrChunk ++ [">"]
        ++ (if hasSingleTextChild (some (HNode.mk .element .br "br" [] [tx "x"]))
            then [] else ["\n"]) :=
  ⟨by decide, C7_void_elements .br "br" [] [tx "x"] 0 none none none (by decide)⟩

/-- C8 (counterexample): a whitespace-only text node inside a style
element emits nothing at all — no lines, no re-indent, and in particular
no trailing newline after the block, contrary to the claim's unconditional
"each line … with a trailing newline". -/
theorem C8_counterexample :
    isSpecialContentElement (some (tStyle [tx "  "])) = true ∧
    chunks (tx "  ") 1 (some (tStyle [tx "  "])) none none = [] ∧
    ([] : List String) ≠ ["\n", indentStr 2, "  ", "\n"] :=
  ⟨by decide, by decide, by decide⟩

/-- C8 (amended): for every text node with at least one non-whitespace
character whose parent is a style or script element, and whose trimmed
text the default bufio.Scanner can scan to completion (every raw line
shorter than maxScanTokenSize = 65536 bytes, the `scanOk` hypothesis),
the TRIMMED text is split into lines, each emitted as a newline, the
indent at indentLevel+1, then the line verbatim (no whitespace collapsing
inside lines), with one trailing newline after the block and nothing
else.  The `scanOk` bound delimits the domain on which the scanner model
is exact: on a string with an over-long raw line the program instead
writes only the lines before it and returns bufio.ErrTooLong with no
trailing newline (format.go:165-167). -/
theorem C8_special_reindent (a : GoAtom) (data : String) (ats : List HAttr)
    (cs : List HNode) (level : Nat) (parent prev next : Option HNode)
    (hs : trimSpace data ≠ "")
    (hsp : isSpecialContentElement parent = true)
    (hscan : scanOk (trimSpace data) = true) :
    chunks (HNode.mk .text a data ats cs) level parent prev next
      = ((scanLines (trimSpace data)).map
          (fun t => ["\n", indentStr (level + 1), t])).flatten ++ ["\n"] := by
  simp only [chunks, if_pos hs]
  simp [textLeadingIndent, hsp]

/-- C8 (witness): the amended statement at a style parent with the
two-line text "a\n b" (the inner line keeps its own leading space; both
raw lines are far below the 65536-byte scanner bound). -/
theorem C8_witness :
    trimSpace "a\n b" ≠ "" ∧
    scanOk (trimSpace "a\n b") = true ∧
    chunks (tx "a\n b") 1 (some (tStyle [tx "a\n b"])) none none
      = ((scanLines (trimSpace "a\n b")).map
          (fun t => ["\n", indentStr 2, t])).flatten ++ ["\n"] :=
  ⟨by decide, by decide,
    C8_special_reindent .zero "a\n b" [] [] 1 (some (tStyle [tx "a\n b"])) none none
      (by decide) (by decide) (by decide)⟩

/-- C9: a write failure aborts the traversal at once — run on a sink
failing at attempt k, Nodes returns the error of that first failing
write, and exactly the chunks of the attempts before k have been flushed
(the flushed output is the length-k prefix: no write after the failing
one is attempted and no later node contributes output); on a sink that
never fails, Nodes flushes every chunk and succeeds.  A parse error in
Document or Fragment is returned unchanged with nothing written to the
sink. -/
theorem C9_error_propagation :
    (∀ (e : FErr) (ws : WS), (Document (.error e)).run ws = .error e ws) ∧
    (∀ (e : FErr) (ws : WS), (Fragment (.error e)).run ws = .error e ws) ∧
    (∀ nodes : List HNode,
      (Nodes nodes).run ⟨[], none⟩ = .ok () ⟨nodesChunks nodes, none⟩) ∧
    (∀ (nodes : List HNode) (k : Nat), k < (nodesChunks nodes).length →
      (Nodes nodes).run ⟨[], some k⟩
        = .error (.sinkErr k) ⟨(nodesChunks nodes).take k, some k⟩) := by
  refine ⟨fun e ws => rfl, fun e ws => rfl, ?_, ?_⟩
  · intro nodes
    rw [isEm_Nodes nodes ⟨[], none⟩, emit_run_none]
    simp
  · intro nodes k hk
    rw [isEm_Nodes nodes ⟨[], some k⟩, emit_run_some]
    rw [if_neg (by simp only [List.length_nil]; omega)]
    simp

/-- C9 (witness): a sink failing at the second write attempt makes Nodes
stop with that write's error after flushing exactly the first chunk. -/
theorem C9_witness :
    1 < (nodesChunks [tx "A"]).length ∧
    (Nodes [tx "A"]).run ⟨[], some 1⟩
      = .error (.sinkErr 1) ⟨(nodesChunks [tx "A"]).take 1, some 1⟩ :=
  ⟨by decide, C9_error_propagation.2.2.2 [tx "A"] 1 (by decide)⟩

/-- C10: void / special-content classification reads only the DataAtom:
the classifiers give the same answer on any two nodes agreeing on kind
and atom whatever their Data, Attr or children; and an element whose Data
is "br" (resp. "script") with zero DataAtom is neither void nor special —
its children are processed and an end tag "</br>" is emitted. -/
theorem C10_atom_identity_only :
    (∀ (t : NType) (a : GoAtom) (d d' : String) (ats ats' : List HAttr)
        (cs cs' : List HNode),
      isVoidElement (HNode.mk t a d ats cs) = isVoidElement (HNode.mk t a d' ats' cs') ∧
      isSpecialContentElement (some (HNode.mk t a d ats cs))
        = isSpecialContentElement (some (HNode.mk t a d' ats' cs'))) ∧
    isVoidElement (HNode.mk .element .zero "br" [] []) = false ∧
    isSpecialContentElement (some (HNode.mk .element .zero "script" [] [])) = false ∧
    output (HNode.mk .element .zero "br" [] [tx "x", tx "y"]) 0 none none none
      = "<br>\n x\n y\n</br>\n" := by
  refine ⟨fun t a d d' ats ats' cs cs' => ⟨rfl, rfl⟩, by decide, by decide, by decide⟩

/-- Regression against format_test.go, case "html attribute escaping is
normalized": the parse tree of the fragment with an ol, two li children
and a style attribute decoded to "&&" renders exactly the expected
output. -/
theorem goTest_attribute_escaping :
    String.join (nodesChunks
      [HNode.mk .element .other "ol" []
        [tx " ", HNode.mk .element .other "li" [⟨"style", "&&"⟩] [tx " A "],
         tx " ", HNode.mk .element .other "li" [] [tx " B "], tx " "],
       tx " "])
      = "<ol>\n <li style=\"&amp;&amp;\">A</li>\n <li>B</li>\n</ol>\n" := by decide

/-- Regression against format_test.go, case "missing closing tags are
inserted": the parse tree of "<li>" is a childless li element, rendered
with its synthesized end tag on its own line. -/
theorem goTest_missing_closing_tag :
    output (HNode.mk .element .other "li" [] []) 0 none none none
      = "<li>\n</li>\n" := by decide

/-- Regression against format_test.go, case "phrasing content element
children are kept on the same line, including punctuation". -/
theorem goTest_phrasing_punctuation :
    output (HNode.mk .element .other "ul" []
      [HNode.mk .element .other "li" []
        [HNode.mk .element .other "a" [⟨"href", "http://example.com"⟩] [tx "Test"],
         tx "."]]) 0 none none none
      = "<ul>\n <li>\n  <a href=\"http://example.com\">Test</a>.\n </li>\n</ul>\n" := by
  decide

/-- Regression in the shape of format_test.go, case "style content is
indented consistently": each line of the style body is re-indented one
level deeper, with the body's own inner indentation preserved. -/
theorem goTest_style_indent :
    output (tStyle [tx "\na: b;\n  c: d;\n"]) 0 none none none
      = "<style>\n  a: b;\n    c: d;\n</style>\n" := by decide

end Htmlformat

